import Mathlib

/-!
Verification development for the Humboldt conduit-establishment layer.

Strings from the Go source are modelled as `List Char`; machine bytes
(`uint8`) and words (`uint16`) are modelled as `Nat`, with the byte- and
word-range invariants of the Go types carried as explicit hypotheses
where they matter.  Fallible Go functions returning `(T, error)` are
modelled with `Except`/`Option`, and Go code that mutates a caller
buffer is modelled by returning the updated buffer.
-/

/-! ## Protocol header codec (proto package, header.go) -/

/-- Errors of the header codec.  The Go source distinguishes
`ErrShortInput`, `ErrShortOutput` and `ErrMaxVersion` (the latter
wrapped with the offending version number, which does not affect error
identity as tested by `errors.Is`). -/
inductive ProtoErr where
  | shortInput
  | shortOutput
  | maxVersion
deriving DecidableEq, Repr

/-- Constant `HeaderSize` from the binary encoding of `Header`. -/
def HeaderSize : Nat := 4

/-- Constant `MaxMajor`: the maximum supported major version. -/
def MaxMajor : Nat := 0

/-- Constant `MajorMask`. -/
def MajorMask : Nat := 0xf0

/-- Constant `MajorShift`. -/
def MajorShift : Nat := 4

/-- Constant `ReplyBit`. -/
def ReplyBit : Nat := 0x08

/-- Constant `ErrorBit`. -/
def ErrorBit : Nat := 0x04

/-- Header of a Humboldt PDU.  Fields `Major` and `Protocol` are
`uint8` and `Length` is `uint16` in the Go source; here they are `Nat`
with the range invariants stated as hypotheses in the theorems. -/
structure Header where
  major : Nat
  reply : Bool
  error : Bool
  protocol : Nat
  length : Nat
deriving DecidableEq, Repr

/-- Method `Header.FromBytes`: fills in a header from a sequence of
bytes.  The Go method mutates the receiver and returns `(int, error)`;
here the result is the header-or-error together with the returned
count.  Byte indexing `data[i]` is rendered with `List.getD` (the
default is irrelevant: indices are only used under the length guard). -/
def Header.FromBytes (data : List Nat) : Except ProtoErr Header × Nat :=
  if data.length < HeaderSize then (.error .shortInput, 0)
  else
    let vers := (data.getD 0 0 &&& MajorMask) >>> MajorShift
    if vers > MaxMajor then (.error .maxVersion, 0)
    else
      (.ok { major := vers
             reply := (data.getD 0 0 &&& ReplyBit) != 0
             error := (data.getD 0 0 &&& ErrorBit) != 0
             protocol := data.getD 1 0
             length := (data.getD 2 0 <<< 8) ||| data.getD 3 0 },
       HeaderSize)

/-- Method `Header.ToBytes`: encodes the header into the caller's byte
buffer.  The result is the (possibly updated) buffer together with the
returned count and error; on error the buffer is returned unchanged,
matching the Go method which writes nothing before its guards pass. -/
def Header.ToBytes (h : Header) (data : List Nat) : List Nat × Nat × Option ProtoErr :=
  if h.major > MaxMajor then (data, 0, some .maxVersion)
  else if data.length < HeaderSize then (data, 0, some .shortOutput)
  else
    let b0 := (h.major <<< MajorShift) &&& MajorMask
    let b0 := if h.reply then b0 ||| ReplyBit else b0
    let b0 := if h.error then b0 ||| ErrorBit else b0
    let data := data.set 0 b0
    let data := data.set 1 h.protocol
    let data := data.set 2 ((h.length &&& 0xff00) >>> 8)
    let data := data.set 3 (h.length &&& 0x00ff)
    (data, HeaderSize, none)

/-- Constant `ExtHeaderSize` from the binary encoding of `ExtHeader`. -/
def ExtHeaderSize : Nat := 4

/-- Constant `IgnoreBit`. -/
def IgnoreBit : Nat := 0x80

/-- Constant `CloseBit`. -/
def CloseBit : Nat := 0x40

/-- Constant `HopBit`. -/
def HopBit : Nat := 0x20

/-- Header of a Humboldt protocol extension. -/
structure ExtHeader where
  ignore : Bool
  close : Bool
  hopByHop : Bool
  protocol : Nat
  length : Nat
deriving DecidableEq, Repr

/-- Method `ExtHeader.FromBytes`: fills in an extension header from a
sequence of bytes. -/
def ExtHeader.FromBytes (data : List Nat) : Except ProtoErr ExtHeader × Nat :=
  if data.length < ExtHeaderSize then (.error .shortInput, 0)
  else
    (.ok { ignore := (data.getD 0 0 &&& IgnoreBit) != 0
           close := (data.getD 0 0 &&& CloseBit) != 0
           hopByHop := (data.getD 0 0 &&& HopBit) != 0
           protocol := data.getD 1 0
           length := (data.getD 2 0 <<< 8) ||| data.getD 3 0 },
     ExtHeaderSize)

/-- Method `ExtHeader.ToBytes`: encodes the extension header into the
caller's byte buffer.  Note that the flag bits are OR-ed into the
existing first byte (`data[0] |= ...`) without clearing it first. -/
def ExtHeader.ToBytes (h : ExtHeader) (data : List Nat) : List Nat × Nat × Option ProtoErr :=
  if data.length < ExtHeaderSize then (data, 0, some .shortOutput)
  else
    let b0 := data.getD 0 0
    let b0 := if h.ignore then b0 ||| IgnoreBit else b0
    let b0 := if h.close then b0 ||| CloseBit else b0
    let b0 := if h.hopByHop then b0 ||| HopBit else b0
    let data := data.set 0 b0
    let data := data.set 1 h.protocol
    let data := data.set 2 ((h.length &&& 0xff00) >>> 8)
    let data := data.set 3 (h.length &&& 0x00ff)
    (data, ExtHeaderSize, none)

/-! Auxiliary bit-arithmetic lemmas for the codec round trips. -/

theorem length_bytes_roundtrip (x : Nat) (hx : x < 65536) :
    (((x &&& 0xff00) >>> 8) <<< 8) ||| (x &&& 0x00ff) = x := by
  have e1 : (0xff00 : Nat) = (2 ^ 8 - 1) <<< 8 := by decide
  have e2 : (0x00ff : Nat) = 2 ^ 8 - 1 := by decide
  apply Nat.eq_of_testBit_eq
  intro i
  simp only [e1, e2, Nat.testBit_or, Nat.testBit_and, Nat.testBit_shiftLeft,
    Nat.testBit_shiftRight, Nat.testBit_two_pow_sub_one]
  by_cases h16 : i < 16
  · by_cases h8 : 8 ≤ i
    · simp [h8, show 8 + (i - 8) = i from by omega, show i - 8 < 8 from by omega,
        show ¬ i < 8 from by omega]
    · simp [h8, show i < 8 from by omega]
  · have hpow : (65536 : Nat) ≤ 2 ^ i := by
      calc (65536 : Nat) = 2 ^ 16 := by norm_num
      _ ≤ 2 ^ i := Nat.pow_le_pow_right (by norm_num) (by omega)
    have hx' : x.testBit i = false :=
      Nat.testBit_lt_two_pow (lt_of_lt_of_le hx hpow)
    simp [hx', show 8 + (i - 8) = i from by omega, show ¬ i < 8 from by omega]

/-- C6: for every `Header` whose `Major` does not exceed the maximum
version (0), encoding it with `ToBytes` into a zeroed buffer of at
least 4 bytes succeeds returning 4, and decoding those bytes with
`FromBytes` reproduces the same `Major`, `Reply`, `Error`, `Protocol`
and `Length` values (byte/word invariants of the `uint8`/`uint16`
fields carried as hypotheses). -/
theorem header_roundtrip (h : Header) (data : List Nat)
    (hmaj : h.major ≤ MaxMajor) (hzero : ∀ b ∈ data, b = 0)
    (hlen : 4 ≤ data.length) (hprot : h.protocol < 256)
    (hlen16 : h.length < 65536) :
    (h.ToBytes data).2.1 = 4 ∧ (h.ToBytes data).2.2 = none ∧
    (Header.FromBytes (h.ToBytes data).1).1 = .ok h ∧
    (Header.FromBytes (h.ToBytes data).1).2 = 4 := by
  obtain ⟨maj, rep, err, prot, len⟩ := h
  simp only [MaxMajor] at hmaj
  have hmaj0 : maj = 0 := by omega
  subst hmaj0
  rcases data with _ | ⟨a, data⟩
  · simp at hlen
  rcases data with _ | ⟨b, data⟩
  · simp at hlen
  rcases data with _ | ⟨c, data⟩
  · simp at hlen
  rcases data with _ | ⟨d, data⟩
  · simp at hlen
  cases rep <;> cases err <;>
    simp [Header.ToBytes, Header.FromBytes, HeaderSize, MaxMajor, MajorMask,
      MajorShift, ReplyBit, ErrorBit, length_bytes_roundtrip len hlen16,
      show ¬ (data.length + 1 + 1 + 1 + 1 < 4) from by omega,
      show ((0 : Nat) &&& 240) >>> 4 = 0 from by decide,
      show ((4 : Nat) &&& 240) >>> 4 = 0 from by decide,
      show ((8 : Nat) &&& 240) >>> 4 = 0 from by decide,
      show ((12 : Nat) &&& 240) >>> 4 = 0 from by decide,
      show (0 : Nat) &&& 8 = 0 from by decide, show (4 : Nat) &&& 8 = 0 from by decide,
      show (8 : Nat) &&& 8 = 8 from by decide, show (12 : Nat) &&& 8 = 8 from by decide,
      show (0 : Nat) &&& 4 = 0 from by decide, show (4 : Nat) &&& 4 = 4 from by decide,
      show (8 : Nat) &&& 4 = 0 from by decide, show (12 : Nat) &&& 4 = 4 from by decide]

/-- C6 witness at the concrete values from the spec: Major=0,
Reply=true, Error=false, Protocol=0x17, Length=0x01FF. -/
theorem header_roundtrip_witness :
    (Header.ToBytes ⟨0, true, false, 0x17, 0x01ff⟩ [0, 0, 0, 0]).2.1 = 4 ∧
    (Header.ToBytes ⟨0, true, false, 0x17, 0x01ff⟩ [0, 0, 0, 0]).2.2 = none ∧
    (Header.FromBytes (Header.ToBytes ⟨0, true, false, 0x17, 0x01ff⟩ [0, 0, 0, 0]).1).1 =
      .ok ⟨0, true, false, 0x17, 0x01ff⟩ ∧
    (Header.FromBytes (Header.ToBytes ⟨0, true, false, 0x17, 0x01ff⟩ [0, 0, 0, 0]).1).2 = 4 :=
  header_roundtrip ⟨0, true, false, 0x17, 0x01ff⟩ [0, 0, 0, 0]
    (by decide) (by decide) (by decide) (by decide) (by decide)

/-- C7: `Header.FromBytes` fails with ShortInput (returning 0) on
fewer than 4 bytes; `Header.ToBytes` fails with ShortOutput (returning
0, buffer untouched) on a destination of fewer than 4 bytes when the
version is valid; `FromBytes` fails with the max-version error when
the top-4-bit version nibble of a well-sized input exceeds 0; and
`ToBytes` fails with the max-version error whenever `Major` exceeds 0,
regardless of the buffer. -/
theorem header_codec_errors :
    (∀ data : List Nat, data.length < 4 →
      Header.FromBytes data = (.error .shortInput, 0)) ∧
    (∀ (h : Header) (data : List Nat), h.major ≤ MaxMajor → data.length < 4 →
      h.ToBytes data = (data, 0, some .shortOutput)) ∧
    (∀ data : List Nat, 4 ≤ data.length →
      MaxMajor < (data.getD 0 0 &&& MajorMask) >>> MajorShift →
      Header.FromBytes data = (.error .maxVersion, 0)) ∧
    (∀ (h : Header) (data : List Nat), MaxMajor < h.major →
      h.ToBytes data = (data, 0, some .maxVersion)) := by
  refine ⟨?_, ?_, ?_, ?_⟩
  · intro data hd
    simp [Header.FromBytes, HeaderSize, hd]
  · intro h data hmaj hd
    simp only [MaxMajor] at hmaj
    simp [Header.ToBytes, HeaderSize, MaxMajor, hd, show ¬ 0 < h.major from by omega]
  · intro data hd hv
    simp only [List.getD, List.get?_eq_getElem?, MaxMajor, MajorMask, MajorShift] at hv
    simp [Header.FromBytes, HeaderSize, MaxMajor, MajorMask, MajorShift,
      show ¬ data.length < 4 from by omega]
    omega
  · intro h data hmaj
    simp only [MaxMajor] at hmaj
    simp [Header.ToBytes, MaxMajor, hmaj]

/-- C7 witness: each failure mode exercised at a concrete input. -/
theorem header_codec_errors_witness :
    Header.FromBytes [0x08, 0x17, 0x01] = (.error .shortInput, 0) ∧
    Header.ToBytes ⟨0, true, true, 0x17, 0x01ff⟩ [0, 0, 0] = ([0, 0, 0], 0, some .shortOutput) ∧
    Header.FromBytes [0x18, 0x17, 0x01, 0xff] = (.error .maxVersion, 0) ∧
    Header.ToBytes ⟨1, true, true, 0x17, 0x01ff⟩ [0, 0, 0, 0, 0, 0] =
      ([0, 0, 0, 0, 0, 0], 0, some .maxVersion) :=
  ⟨header_codec_errors.1 [0x08, 0x17, 0x01] (by decide),
   header_codec_errors.2.1 ⟨0, true, true, 0x17, 0x01ff⟩ [0, 0, 0] (by decide) (by decide),
   header_codec_errors.2.2.1 [0x18, 0x17, 0x01, 0xff] (by decide) (by decide),
   header_codec_errors.2.2.2 ⟨1, true, true, 0x17, 0x01ff⟩ [0, 0, 0, 0, 0, 0] (by decide)⟩

/-- C10: `ExtHeader.ToBytes` ORs the flag bits into the first output
byte without clearing it: for every extension header and destination
buffer of at least 4 bytes whose first byte is zero, encode-then-decode
reproduces the `Ignore`, `Close`, `HopByHop`, `Protocol` and `Length`
fields; but encoding the all-flags-false header into a buffer whose
first byte is 0x80 then decoding yields `Ignore = true`, different
from the original header. -/
theorem extheader_or_flags (h : ExtHeader) (data : List Nat)
    (hfirst : data.getD 0 0 = 0) (hlen : 4 ≤ data.length)
    (hprot : h.protocol < 256) (hlen16 : h.length < 65536) :
    ((ExtHeader.FromBytes (h.ToBytes data).1).1 = .ok h ∧
     (h.ToBytes data).2.1 = 4 ∧ (h.ToBytes data).2.2 = none) ∧
    ((ExtHeader.FromBytes
        (ExtHeader.ToBytes ⟨false, false, false, 0x17, 0x01ff⟩ [0x80, 0, 0, 0]).1).1 =
       .ok ⟨true, false, false, 0x17, 0x01ff⟩ ∧
     (⟨true, false, false, 0x17, 0x01ff⟩ : ExtHeader) ≠ ⟨false, false, false, 0x17, 0x01ff⟩) := by
  refine ⟨?_, by rfl, by decide⟩
  obtain ⟨ig, cl, hop, prot, len⟩ := h
  rcases data with _ | ⟨a, data⟩
  · simp at hlen
  rcases data with _ | ⟨b, data⟩
  · simp at hlen
  rcases data with _ | ⟨c, data⟩
  · simp at hlen
  rcases data with _ | ⟨d, data⟩
  · simp at hlen
  simp only [List.getD, List.get?, Option.getD] at hfirst
  subst hfirst
  cases ig <;> cases cl <;> cases hop <;>
    simp [ExtHeader.ToBytes, ExtHeader.FromBytes, ExtHeaderSize, IgnoreBit,
      CloseBit, HopBit, length_bytes_roundtrip len hlen16,
      show ¬ (data.length + 1 + 1 + 1 + 1 < 4) from by omega] <;>
    decide

/-- C10 witness: the round trip at a concrete header and zero-headed
buffer. -/
theorem extheader_or_flags_witness :
    (ExtHeader.FromBytes
       (ExtHeader.ToBytes ⟨true, false, true, 0x17, 0x01ff⟩ [0, 0, 0, 0]).1).1 =
      .ok ⟨true, false, true, 0x17, 0x01ff⟩ :=
  (extheader_or_flags ⟨true, false, true, 0x17, 0x01ff⟩ [0, 0, 0, 0]
    (by decide) (by decide) (by decide) (by decide)).1.1

/-! ## URI scheme decomposition (conduit package, uri.go `Parse`) -/

/-- Index of the first occurrence of `c`, as computed by Go's
`strings.IndexAny(s, string(c))` for a one-character cutset (`none`
models the Go return value -1). -/
def goIndex (c : Char) : List Char → Option Nat
  | [] => none
  | a :: rest => if a = c then some 0 else (goIndex c rest).map (· + 1)

/-- Index of the last occurrence of `c`, as computed by Go's
`strings.LastIndexAny(s, string(c))` for a one-character cutset. -/
def goLastIndex (c : Char) : List Char → Option Nat
  | [] => none
  | a :: rest =>
    match goLastIndex c rest with
    | some i => some (i + 1)
    | none => if a = c then some 0 else none

/-- Scheme identifiers extracted by `Parse`. -/
structure SchemeParts where
  transport : List Char
  security : List Char
  discovery : List Char
deriving DecidableEq, Repr

/-- Remainder of the scheme after `Parse` strips the discovery suffix
(the Go reassignment `scheme = scheme[:discIdx]`, or the whole scheme
when there is no dot). -/
def preDiscovery (scheme : List Char) : List Char :=
  match goLastIndex '.' scheme with
  | some i => scheme.take i
  | none => scheme

/-- Discovery identifier extracted by `Parse` (`scheme[discIdx+1:]`,
or empty when there is no dot). -/
def schemeDiscovery (scheme : List Char) : List Char :=
  match goLastIndex '.' scheme with
  | some i => scheme.drop (i + 1)
  | none => []

/-- Scheme decomposition performed by `Parse` (uri.go): first the last
dot splits off `Discovery`, then the first plus of the remainder
splits off `Security`, and what is left is `Transport`. -/
def parseScheme (scheme : List Char) : SchemeParts :=
  let rest := preDiscovery scheme
  { transport :=
      match goIndex '+' rest with
      | some j => rest.take j
      | none => rest
    security :=
      match goIndex '+' rest with
      | some j => rest.drop (j + 1)
      | none => []
    discovery := schemeDiscovery scheme }

/-- Scheme strings accepted by Go's `url.Parse` (its `getScheme`
helper): a letter followed by letters, digits, `+`, `-` or `.`.  Used
only to exhibit inputs that `Parse` really accepts. -/
def validScheme (s : List Char) : Bool :=
  match s with
  | [] => false
  | a :: rest =>
    a.isAlpha && rest.all fun c => c.isAlpha || c.isDigit || c == '+' || c == '-' || c == '.'

theorem goIndex_eq_none {c : Char} {s : List Char} : goIndex c s = none ↔ c ∉ s := by
  induction s with
  | nil => simp [goIndex]
  | cons a rest ih =>
    by_cases hac : a = c
    · subst hac
      simp [goIndex]
    · have hca : ¬c = a := fun h => hac h.symm
      simp [goIndex, hac, ih, hca]

theorem goIndex_decomp {c : Char} {s : List Char} {i : Nat} (h : goIndex c s = some i) :
    s = s.take i ++ c :: s.drop (i + 1) ∧ c ∉ s.take i := by
  induction s generalizing i with
  | nil => simp [goIndex] at h
  | cons a rest ih =>
    by_cases hac : a = c
    · subst hac
      simp [goIndex] at h
      subst h
      simp
    · simp only [goIndex, if_neg hac, Option.map_eq_some'] at h
      obtain ⟨j, hj, rfl⟩ := h
      obtain ⟨hdec, hmem⟩ := ih hj
      constructor
      · simpa using congrArg (a :: ·) hdec
      · simp only [List.take_succ_cons, List.mem_cons, not_or]
        exact ⟨fun hca => hac hca.symm, hmem⟩

theorem goLastIndex_eq_none {c : Char} {s : List Char} : goLastIndex c s = none ↔ c ∉ s := by
  induction s with
  | nil => simp [goLastIndex]
  | cons a rest ih =>
    by_cases hac : a = c
    · subst hac
      simp only [goLastIndex]
      cases hL : goLastIndex a rest <;> simp [hL]
    · have hca : ¬c = a := fun h => hac h.symm
      simp only [goLastIndex]
      cases hL : goLastIndex c rest <;> simp_all [hac, hca]

theorem goLastIndex_decomp {c : Char} {s : List Char} {i : Nat}
    (h : goLastIndex c s = some i) :
    s = s.take i ++ c :: s.drop (i + 1) ∧ c ∉ s.drop (i + 1) := by
  induction s generalizing i with
  | nil => simp [goLastIndex] at h
  | cons a rest ih =>
    simp only [goLastIndex] at h
    cases hL : goLastIndex c rest with
    | some k =>
      rw [hL] at h
      obtain rfl : k + 1 = i := by simpa using h
      obtain ⟨hdec, hmem⟩ := ih hL
      constructor
      · simpa using congrArg (a :: ·) hdec
      · simpa using hmem
    | none =>
      rw [hL] at h
      by_cases hac : a = c
      · subst hac
        simp only [if_pos rfl] at h
        obtain rfl : 0 = i := by simpa using h
        simp [goLastIndex_eq_none.mp hL]
      · simp [hac] at h

/-- C1: the scheme decomposition performed by `Parse` takes everything
after the last dot as `Discovery` (so `Discovery` itself contains no
dot), then everything after the first plus of the remainder as
`Security` (so `Transport` contains no plus); in particular
`tcp+s1+s2.d1.d2` yields Transport `tcp`, Security `s1+s2.d1`,
Discovery `d2`. -/
theorem parseScheme_correct :
    (∀ s : List Char,
      (('.' ∉ s ∧ (parseScheme s).discovery = [] ∧ preDiscovery s = s) ∨
        (s = preDiscovery s ++ '.' :: (parseScheme s).discovery ∧
          '.' ∉ (parseScheme s).discovery)) ∧
      (('+' ∉ preDiscovery s ∧ (parseScheme s).security = [] ∧
          (parseScheme s).transport = preDiscovery s) ∨
        (preDiscovery s = (parseScheme s).transport ++ '+' :: (parseScheme s).security ∧
          '+' ∉ (parseScheme s).transport))) ∧
    parseScheme "tcp+s1+s2.d1.d2".toList =
      ⟨"tcp".toList, "s1+s2.d1".toList, "d2".toList⟩ := by
  refine ⟨fun s => ⟨?_, ?_⟩, by decide⟩
  · cases hL : goLastIndex '.' s with
    | none =>
      exact .inl ⟨goLastIndex_eq_none.mp hL, by simp [parseScheme, schemeDiscovery, hL],
        by simp [preDiscovery, hL]⟩
    | some i =>
      obtain ⟨hdec, hmem⟩ := goLastIndex_decomp hL
      refine .inr ⟨?_, ?_⟩
      · simpa [parseScheme, schemeDiscovery, preDiscovery, hL] using hdec
      · simpa [parseScheme, schemeDiscovery, hL] using hmem
  · cases hI : goIndex '+' (preDiscovery s) with
    | none =>
      exact .inl ⟨goIndex_eq_none.mp hI, by simp [parseScheme, hI], by simp [parseScheme, hI]⟩
    | some j =>
      obtain ⟨hdec, hmem⟩ := goIndex_decomp hI
      refine .inr ⟨?_, ?_⟩
      · simpa [parseScheme, hI] using hdec
      · simpa [parseScheme, hI] using hmem

/-- Spec-modelled re-join of the three scheme identifiers:
`Transport["+"Security]["."Discovery]`, the invariant stated in the
spec's data-model section. -/
def rejoinScheme (p : SchemeParts) : List Char :=
  p.transport ++ (if p.security = [] then [] else '+' :: p.security) ++
    (if p.discovery = [] then [] else '.' :: p.discovery)

/-- C3 counterexample: the scheme `tcp+` is accepted by Go's URL
parser (letter then letters/plus), but `Parse` extracts Transport
`tcp` and empty Security, and the re-join drops the trailing `+`. -/
theorem rejoin_counterexample :
    validScheme "tcp+".toList = true ∧
    rejoinScheme (parseScheme "tcp+".toList) ≠ "tcp+".toList := by
  constructor
  · decide
  · decide

/-- C3 (amended): re-joining `Transport["+"Security]["."Discovery]`
reproduces the original scheme provided the extracted `Discovery` is
non-empty whenever the scheme contains a dot and the extracted
`Security` is non-empty whenever the scheme minus its discovery suffix
contains a plus (i.e. except for schemes ending in `.` or whose
pre-discovery part ends in `+`). -/
theorem rejoin_parseScheme (s : List Char)
    (hd : '.' ∈ s → (parseScheme s).discovery ≠ [])
    (hs : '+' ∈ preDiscovery s → (parseScheme s).security ≠ []) :
    rejoinScheme (parseScheme s) = s := by
  have hrest : (parseScheme s).transport ++
      (if (parseScheme s).security = [] then [] else '+' :: (parseScheme s).security) =
      preDiscovery s := by
    cases hI : goIndex '+' (preDiscovery s) with
    | none => simp [parseScheme, hI]
    | some j =>
      obtain ⟨hdec, _⟩ := goIndex_decomp hI
      have htr : (parseScheme s).transport = (preDiscovery s).take j := by
        simp [parseScheme, hI]
      have hsec : (parseScheme s).security = (preDiscovery s).drop (j + 1) := by
        simp [parseScheme, hI]
      have hne : (parseScheme s).security ≠ [] := by
        refine hs ?_
        rw [hdec]
        simp
      rw [htr, if_neg hne, hsec]
      exact hdec.symm
  cases hL : goLastIndex '.' s with
  | none =>
    have hpre : preDiscovery s = s := by simp [preDiscovery, hL]
    have hdisc : (parseScheme s).discovery = [] := by
      simp [parseScheme, schemeDiscovery, hL]
    rw [rejoinScheme, if_pos hdisc, List.append_nil, hrest, hpre]
  | some i =>
    obtain ⟨hdec, _⟩ := goLastIndex_decomp hL
    have hpre : preDiscovery s = s.take i := by simp [preDiscovery, hL]
    have hdisc : (parseScheme s).discovery = s.drop (i + 1) := by
      simp [parseScheme, schemeDiscovery, hL]
    have hmemdot : '.' ∈ s := by
      rw [hdec]
      simp
    have hne : (parseScheme s).discovery ≠ [] := hd hmemdot
    rw [rejoinScheme, if_neg hne, hrest, hpre, hdisc]
    exact hdec.symm

/-- C3 witness for the amended claim at the scheme `tcp+s1.d`. -/
theorem rejoin_parseScheme_witness :
    rejoinScheme (parseScheme "tcp+s1.d".toList) = "tcp+s1.d".toList :=
  rejoin_parseScheme "tcp+s1.d".toList (by decide) (by decide)

/-! ## URI data model and IsCanonical (conduit package, uri.go) -/

/-- Fields of Go's `url.URL` that uri.go reads or copies (`User` is
the rendered userinfo; the Go code only copies the pointer; `opq`
stands for the Go field named after its role of holding the opaque
part of the URL, a word reserved in Lean). -/
structure URL where
  scheme : List Char := []
  opq : List Char := []
  user : List Char := []
  host : List Char := []
  path : List Char := []
  rawPath : List Char := []
  forceQuery : Bool := false
  rawQuery : List Char := []
  fragment : List Char := []
deriving DecidableEq, Repr

/-- Conduit URI: an embedded URL plus the three scheme identifiers
extracted by `Parse`. -/
structure URI where
  url : URL
  transport : List Char := []
  security : List Char := []
  discovery : List Char := []
deriving DecidableEq, Repr

/-- Decimal digit accumulator for `parseUint16`. -/
def parseDigits : List Char → Nat → Option Nat
  | [], acc => some acc
  | c :: rest, acc =>
    if c.isDigit then parseDigits rest (acc * 10 + (c.toNat - 48)) else none

/-- Semantic model of `strconv.ParseUint(port, 10, 16)`: succeeds
exactly on a non-empty all-digit string whose value fits in 16 bits
(Go signals overflow past 16 bits as `ErrRange`). -/
def parseUint16 (s : List Char) : Option Nat :=
  if s.isEmpty then none
  else
    match parseDigits s 0 with
    | none => none
    | some n => if n ≤ 65535 then some n else none

/-- Method `URI.IsCanonical` (uri.go).  The strict host:port splitter
`net.SplitHostPort` and the literal-IP parser `net.ParseIP` are
standard-library collaborators, abstracted as the parameters
`splitHostPort` (returning host and port or an error) and `parseIP`
(returning the parsed IP, or `none` as Go returns nil). -/
def URI.IsCanonical {ε : Type}
    (splitHostPort : List Char → Except ε (List Char × List Char))
    (parseIP : List Char → Option (List Char)) (u : URI) : Bool :=
  if u.discovery ≠ [] then false
  else if u.url.host = [] then true
  else
    match splitHostPort u.url.host with
    | .error _ => false
    | .ok (host, port) =>
      if (parseUint16 port).isNone then false
      else if (parseIP host).isNone then false
      else true

/-- C2: `IsCanonical` is true exactly when `Discovery` is empty and
the host is either empty or splits into a literal IP and a port that
parses as an unsigned 16-bit integer; any non-empty discovery,
unsplittable host, non-IP hostname or non-`uint16` port yields
false. -/
theorem isCanonical_iff {ε : Type}
    (splitHostPort : List Char → Except ε (List Char × List Char))
    (parseIP : List Char → Option (List Char)) (u : URI) :
    u.IsCanonical splitHostPort parseIP = true ↔
      (u.discovery = [] ∧ (u.url.host = [] ∨
        ∃ host port, splitHostPort u.url.host = .ok (host, port) ∧
          (parseIP host).isSome ∧ (parseUint16 port).isSome)) := by
  unfold URI.IsCanonical
  by_cases hdisc : u.discovery = []
  · by_cases hhost : u.url.host = []
    · simp [hdisc, hhost]
    · cases hsplit : splitHostPort u.url.host with
      | error e => simp [hdisc, hhost, hsplit]
      | ok hp =>
        obtain ⟨host, port⟩ := hp
        by_cases hport : (parseUint16 port).isNone
        · simp only [hdisc, hhost, hsplit]
          simp [hport, Option.isNone_iff_eq_none.mp hport]
        · by_cases hip : (parseIP host).isNone
          · simp only [hdisc, hhost, hsplit]
            simp [hport, hip, Option.isNone_iff_eq_none.mp hip]
          · have hport' : (parseUint16 port).isSome = true := by
              cases hp : parseUint16 port
              · simp [hp] at hport
              · simp
            have hip' : (parseIP host).isSome = true := by
              cases hq : parseIP host
              · simp [hq] at hip
              · simp
            simp only [hdisc, hhost, hsplit]
            simp [hport, hip]
            exact ⟨host, port, ⟨rfl, rfl⟩, hip', hport'⟩
  · simp [hdisc]

/-! ## URI canonicalization (conduit package, uri.go `Canonicalize`) -/

/-- Errors of `Canonicalize`: the unknown-discovery error, or an error
propagated unwrapped from a collaborator (splitter, DNS resolver,
service lookup, discovery mechanism). -/
inductive CanonErr (ε : Type) where
  | unknownDiscovery
  | ext (e : ε)
deriving DecidableEq, Repr

/-- Model of `net.JoinHostPort`: brackets the host when it contains a
colon. -/
def joinHostPort (host port : List Char) : List Char :=
  if ':' ∈ host then '[' :: host ++ ']' :: ':' :: port
  else host ++ ':' :: port

/-- Model of `strconv.FormatUint(n, 10)`. -/
def formatNat (n : Nat) : List Char := Nat.toDigits 10 n

/-- Method `URI.Canonicalize` (uri.go).  Collaborators are parameters:
`discMechs` is the discovery-mechanism registry (a map lookup),
`splitHostPort`/`parseIP` as in `IsCanonical`, and `lookupIP` and
`lookupPort` are the patchable `net.LookupIP`/`net.LookupPort`
bindings from patches.go.  IPs are represented by their rendered
string form (the code only uses `ip.String()`).  The second component
of the result instruments the effect the spec talks about: it counts
how many times the service-name (port) lookup is invoked, which in
the code is 0 or 1 by construction. -/
def URI.Canonicalize {ε : Type}
    (discMechs : List Char → Option (URI → Except (CanonErr ε) (List URI)))
    (splitHostPort : List Char → Except ε (List Char × List Char))
    (parseIP : List Char → Option (List Char))
    (lookupIP : List Char → Except ε (List (List Char)))
    (lookupPort : List Char → List Char → Except ε Nat)
    (u : URI) : Except (CanonErr ε) (List URI) × Nat :=
  if u.discovery ≠ [] then
    match discMechs u.discovery with
    | none => (.error .unknownDiscovery, 0)
    | some disc => (disc u, 0)
  else if u.url.host = [] then (.ok [u], 0)
  else
    match splitHostPort u.url.host with
    | .error e => (.error (.ext e), 0)
    | .ok (host, port) =>
      let ipsE : Except ε (List (List Char)) :=
        match parseIP host with
        | some ip => .ok [ip]
        | none => lookupIP host
      match ipsE with
      | .error e => (.error (.ext e), 0)
      | .ok ips =>
        match parseUint16 port with
        | some _ =>
          (.ok (ips.map fun ip =>
            { url := { scheme := u.url.scheme, opq := u.url.opq, user := u.url.user,
                       host := joinHostPort ip port, path := u.url.path,
                       rawPath := u.url.rawPath, forceQuery := u.url.forceQuery,
                       rawQuery := u.url.rawQuery, fragment := u.url.fragment },
              transport := u.transport, security := u.security,
              discovery := u.discovery }), 0)
        | none =>
          match lookupPort u.transport port with
          | .error e => (.error (.ext e), 1)
          | .ok numPort =>
            (.ok (ips.map fun ip =>
              { url := { scheme := u.url.scheme, opq := u.url.opq, user := u.url.user,
                         host := joinHostPort ip (formatNat numPort), path := u.url.path,
                         rawPath := u.url.rawPath, forceQuery := u.url.forceQuery,
                         rawQuery := u.url.rawQuery, fragment := u.url.fragment },
                transport := u.transport, security := u.security,
                discovery := u.discovery }), 1)

/-- C5: canonicalizing a discovery-free URI whose host is not a
literal IP but resolves to one or more IPs, and whose port is not
numeric, performs exactly one port lookup and yields one derived URI
per resolved IP, each carrying the single resolved port and the
original URI's other fields unchanged. -/
theorem canonicalize_service_port {ε : Type}
    (discMechs : List Char → Option (URI → Except (CanonErr ε) (List URI)))
    (splitHostPort : List Char → Except ε (List Char × List Char))
    (parseIP : List Char → Option (List Char))
    (lookupIP : List Char → Except ε (List (List Char)))
    (lookupPort : List Char → List Char → Except ε Nat)
    (u : URI) (host port : List Char) (ips : List (List Char)) (n : Nat)
    (hdisc : u.discovery = []) (hhost : u.url.host ≠ [])
    (hsplit : splitHostPort u.url.host = .ok (host, port))
    (hip : parseIP host = none)
    (hips : lookupIP host = .ok ips) (_hne : ips ≠ [])
    (hport : parseUint16 port = none)
    (hlook : lookupPort u.transport port = .ok n) :
    u.Canonicalize discMechs splitHostPort parseIP lookupIP lookupPort =
      (.ok (ips.map fun ip =>
        { url := { scheme := u.url.scheme, opq := u.url.opq, user := u.url.user,
                   host := joinHostPort ip (formatNat n), path := u.url.path,
                   rawPath := u.url.rawPath, forceQuery := u.url.forceQuery,
                   rawQuery := u.url.rawQuery, fragment := u.url.fragment },
          transport := u.transport, security := u.security,
          discovery := u.discovery }), 1) := by
  simp [URI.Canonicalize, hdisc, hhost, hsplit, hip, hips, hport, hlook]

/-- C5 witness: a host resolving to two IPs and a symbolic port
resolving to 80 yields two derived URIs sharing port 80 and one port
lookup. -/
theorem canonicalize_service_port_witness :
    URI.Canonicalize (ε := Unit) (fun _ => none)
      (fun _ => .ok ("example.com".toList, "svc".toList))
      (fun _ => none)
      (fun _ => .ok ["10.0.0.1".toList, "10.0.0.2".toList])
      (fun _ _ => .ok 80)
      { url := { host := "example.com:svc".toList } } =
      (.ok [{ url := { host := "10.0.0.1:80".toList } },
            { url := { host := "10.0.0.2:80".toList } }], 1) := by
  have h := canonicalize_service_port (ε := Unit) (fun _ => none)
    (fun _ => .ok ("example.com".toList, "svc".toList))
    (fun _ => none)
    (fun _ => .ok ["10.0.0.1".toList, "10.0.0.2".toList])
    (fun _ _ => .ok 80)
    { url := { host := "example.com:svc".toList } }
    "example.com".toList "svc".toList ["10.0.0.1".toList, "10.0.0.2".toList] 80
    rfl (by decide) rfl rfl rfl (by decide) (by decide) rfl
  rw [h]
  rfl

/-! ## Conduit model and the TCP mechanism (conduit.go, tcp.go) -/

/-- Conduit lifecycle states (conduit.go).  The Go constant `Open` is
rendered `opened` because `open` is reserved in Lean. -/
inductive ConduitState where
  | undefined
  | active
  | passive
  | opened
  | closed
  | error
deriving DecidableEq, Repr

/-- Network connection as seen by this core: Go's `net.Conn` exposes
`LocalAddr()`/`RemoteAddr()`, modelled by their rendered strings. -/
structure Conn where
  localAddr : List Char
  remoteAddr : List Char
deriving DecidableEq, Repr

/-- Established conduit (conduit.go).  The remaining Go fields
(protocol bounds, RTT estimates, security metadata, `Peer`, `Error`)
are zero-initialized by this core and play no role in the claims, so
they are omitted from the model. -/
structure Conduit where
  state : ConduitState
  localURI : URI
  remoteURI : URI
  link : Conn
deriving DecidableEq, Repr

/-- Function `TCPAddr2URI` (tcp.go): wraps a TCP address string in a
`tcp` URI. -/
def TCPAddr2URI (addr : List Char) : URI :=
  { url := { scheme := "tcp".toList, host := addr },
    transport := "tcp".toList }

/-- Method `TCPMech.Dial` (tcp.go): dials `u.Host` over the `tcp`
network and wraps the resulting connection.  The dialer built by
`mkDialerPatch` from the options is abstracted as its `DialContext`
behavior `dialContext network address`; the cancellation context is
outside the embedding. -/
def TCPMech.Dial {ε : Type} (dialContext : List Char → List Char → Except ε Conn)
    (u : URI) : Except ε Conduit :=
  match dialContext "tcp".toList u.url.host with
  | .error e => .error e
  | .ok c =>
    .ok { state := .active, localURI := TCPAddr2URI c.localAddr,
          remoteURI := u, link := c }

/-- Listener of the TCP transport (tcp.go): the native listener is
abstracted away, keeping the bound URI. -/
structure TCPListener where
  uri : URI
deriving DecidableEq, Repr

/-- Method `TCPListener.Accept` (tcp.go): waits for a connection (the
outcome of the native `Accept`, a blocking effect, is passed as the
`acceptConn` argument) and wraps it. -/
def TCPListener.Accept {ε : Type} (l : TCPListener)
    (acceptConn : Except ε Conn) : Except ε Conduit :=
  match acceptConn with
  | .error e => .error e
  | .ok c =>
    .ok { state := .passive, localURI := l.uri,
          remoteURI := TCPAddr2URI c.remoteAddr, link := c }

/-- C9: every conduit this core returns is in the `Active` or
`Passive` state: a successful `TCPMech.Dial` yields `State = Active`
and a successful `TCPListener.Accept` yields `State = Passive` (and
hence never `Undefined`, `Open`, `Closed` or `Error`). -/
theorem conduit_states (ε : Type) :
    (∀ (dialContext : List Char → List Char → Except ε Conn) (u : URI) (c : Conduit),
      TCPMech.Dial dialContext u = .ok c → c.state = .active) ∧
    (∀ (l : TCPListener) (acceptConn : Except ε Conn) (c : Conduit),
      l.Accept acceptConn = .ok c → c.state = .passive) := by
  constructor
  · intro dialContext u c h
    unfold TCPMech.Dial at h
    cases hd : dialContext "tcp".toList u.url.host with
    | error e => rw [hd] at h; exact absurd h (by simp)
    | ok conn =>
      rw [hd] at h
      obtain rfl : _ = c := by simpa using h
      rfl
  · intro l acceptConn c h
    unfold TCPListener.Accept at h
    cases ha : acceptConn with
    | error e => rw [ha] at h; exact absurd h (by simp)
    | ok conn =>
      rw [ha] at h
      obtain rfl : _ = c := by simpa using h
      rfl

/-- C9 witness: concrete dial and accept outcomes. -/
theorem conduit_states_witness :
    (TCPMech.Dial (ε := Unit) (fun _ _ => .ok ⟨"1.1.1.1:1".toList, "2.2.2.2:2".toList⟩)
      { url := { host := "2.2.2.2:2".toList } } =
      .ok { state := .active,
            localURI := TCPAddr2URI "1.1.1.1:1".toList,
            remoteURI := { url := { host := "2.2.2.2:2".toList } },
            link := ⟨"1.1.1.1:1".toList, "2.2.2.2:2".toList⟩ }) ∧
    ({ state := .active,
       localURI := TCPAddr2URI "1.1.1.1:1".toList,
       remoteURI := { url := { host := "2.2.2.2:2".toList } },
       link := (⟨"1.1.1.1:1".toList, "2.2.2.2:2".toList⟩ : Conn) } : Conduit).state = .active ∧
    (TCPListener.Accept (ε := Unit) ⟨TCPAddr2URI "1.1.1.1:1".toList⟩
      (.ok ⟨"1.1.1.1:1".toList, "2.2.2.2:2".toList⟩) =
      .ok { state := .passive,
            localURI := TCPAddr2URI "1.1.1.1:1".toList,
            remoteURI := TCPAddr2URI "2.2.2.2:2".toList,
            link := ⟨"1.1.1.1:1".toList, "2.2.2.2:2".toList⟩ }) ∧
    ({ state := .passive,
       localURI := TCPAddr2URI "1.1.1.1:1".toList,
       remoteURI := TCPAddr2URI "2.2.2.2:2".toList,
       link := (⟨"1.1.1.1:1".toList, "2.2.2.2:2".toList⟩ : Conn) } : Conduit).state = .passive :=
  ⟨rfl,
   (conduit_states Unit).1 (fun _ _ => .ok ⟨"1.1.1.1:1".toList, "2.2.2.2:2".toList⟩)
     { url := { host := "2.2.2.2:2".toList } } _ rfl,
   rfl,
   (conduit_states Unit).2 ⟨TCPAddr2URI "1.1.1.1:1".toList⟩
     (.ok ⟨"1.1.1.1:1".toList, "2.2.2.2:2".toList⟩) _ rfl⟩

/-! ## Dial dispatch (conduit package, uri.go `URI.Dial`) -/

/-- Errors of `URI.Dial`: the canonicality and registry errors of
uri.go, or an error returned by the selected mechanism. -/
inductive DialErr (ε : Type) where
  | notCanonical
  | unknownTransport
  | unknownSecurity
  | mech (e : ε)
deriving DecidableEq, Repr

/-- Mechanism capability used by the dial path (`Mechanism.Dial` in
mechanism.go): configuration and target URI in, conduit or error
out. -/
def Mechanism (κ ε : Type) : Type := κ → URI → Except ε Conduit

/-- Method `URI.Dial` (uri.go): requires a canonical URI and a
non-empty transport, then dispatches to the security mechanism when a
security layer is named, otherwise to the transport mechanism.  The
registries are the parameters `lookupSecurity`/`lookupTransport` (the
patchable bindings from patches.go, returning the Go nil as `none`).
The two appended counters instrument the effects the spec talks
about: how many registry lookups were performed and how many
mechanism `Dial` invocations were made. -/
def URI.Dial {ε κ : Type}
    (splitHostPort : List Char → Except ε (List Char × List Char))
    (parseIP : List Char → Option (List Char))
    (lookupSecurity : List Char → Option (Mechanism κ ε))
    (lookupTransport : List Char → Option (Mechanism κ ε))
    (config : κ) (u : URI) : Except (DialErr ε) Conduit × Nat × Nat :=
  if ¬ u.IsCanonical splitHostPort parseIP then (.error .notCanonical, 0, 0)
  else if u.transport = [] then (.error .unknownTransport, 0, 0)
  else if u.security ≠ [] then
    match lookupSecurity u.security with
    | some mech => ((mech config u).mapError .mech, 1, 1)
    | none => (.error .unknownSecurity, 1, 0)
  else
    match lookupTransport u.transport with
    | some mech => ((mech config u).mapError .mech, 1, 1)
    | none => (.error .unknownTransport, 1, 0)

/-- C4: a URI with a non-empty discovery suffix is never canonical;
dialing any non-canonical URI fails with NotCanonical performing zero
registry lookups and zero mechanism invocations (for any registry
contents); and dialing a canonical URI with empty transport fails
with UnknownTransport, again with zero lookups and invocations. -/
theorem dial_precondition_errors :
    (∀ (ε : Type) (splitHostPort : List Char → Except ε (List Char × List Char))
      (parseIP : List Char → Option (List Char)) (u : URI),
      u.discovery ≠ [] → u.IsCanonical splitHostPort parseIP = false) ∧
    (∀ (ε κ : Type) (splitHostPort : List Char → Except ε (List Char × List Char))
      (parseIP : List Char → Option (List Char))
      (lookupSecurity lookupTransport : List Char → Option (Mechanism κ ε))
      (config : κ) (u : URI),
      u.IsCanonical splitHostPort parseIP = false →
      u.Dial splitHostPort parseIP lookupSecurity lookupTransport config =
        (.error .notCanonical, 0, 0)) ∧
    (∀ (ε κ : Type) (splitHostPort : List Char → Except ε (List Char × List Char))
      (parseIP : List Char → Option (List Char))
      (lookupSecurity lookupTransport : List Char → Option (Mechanism κ ε))
      (config : κ) (u : URI),
      u.IsCanonical splitHostPort parseIP = true → u.transport = [] →
      u.Dial splitHostPort parseIP lookupSecurity lookupTransport config =
        (.error .unknownTransport, 0, 0)) := by
  refine ⟨?_, ?_, ?_⟩
  · intro ε splitHostPort parseIP u hd
    simp [URI.IsCanonical, hd]
  · intro ε κ splitHostPort parseIP lookupSecurity lookupTransport config u hc
    simp [URI.Dial, hc]
  · intro ε κ splitHostPort parseIP lookupSecurity lookupTransport config u hc ht
    simp [URI.Dial, hc, ht]

/-- C4 witness: a URI with discovery suffix `d` is dialed against
arbitrary registries and fails NotCanonical with no lookups; a
canonical URI with empty transport fails UnknownTransport with no
lookups. -/
theorem dial_precondition_errors_witness :
    (URI.IsCanonical (ε := Unit) (fun _ => .error ()) (fun _ => none)
      { url := {}, discovery := ['d'] } = false) ∧
    (URI.Dial (ε := Unit) (κ := Unit) (fun _ => .error ()) (fun _ => none)
      (fun _ => none) (fun _ => none) ()
      { url := {}, discovery := ['d'] } = (.error .notCanonical, 0, 0)) ∧
    (URI.Dial (ε := Unit) (κ := Unit) (fun _ => .error ()) (fun _ => none)
      (fun _ => none) (fun _ => none) ()
      { url := {} } = (.error .unknownTransport, 0, 0)) :=
  ⟨dial_precondition_errors.1 Unit (fun _ => .error ()) (fun _ => none)
     { url := {}, discovery := ['d'] } (by decide),
   dial_precondition_errors.2.1 Unit Unit (fun _ => .error ()) (fun _ => none)
     (fun _ => none) (fun _ => none) ()
     { url := {}, discovery := ['d'] }
     (dial_precondition_errors.1 Unit (fun _ => .error ()) (fun _ => none)
       { url := {}, discovery := ['d'] } (by decide)),
   dial_precondition_errors.2.2 Unit Unit (fun _ => .error ()) (fun _ => none)
     (fun _ => none) (fun _ => none) () { url := {} } rfl rfl⟩

/-! ## Option application with filters (conduit package, options.go) -/

/-- Loop body of `mkDialer` (options.go): walks the options in order;
for each option the filter (when present) is consulted first — an
error aborts the walk, otherwise the (possibly mutated, hence
returned) option is applied to the builder.  Options are an abstract
type `α` with the `DialApply` behavior `applyOpt`; the builder
`net.Dialer` is the abstract state `σ`; the Go filter mutates the
option through a pointer and returns an error, modelled as
`α → Except ε α`.  Returns the builder state reached and the aborting
error, if any. -/
def applyDialerOptions {σ α ε : Type} (applyOpt : α → σ → σ)
    (filt : Option (α → Except ε α)) : List α → σ → σ × Option ε
  | [], d => (d, none)
  | opt :: opts, d =>
    match filt with
    | some f =>
      match f opt with
      | .error e => (d, some e)
      | .ok opt2 => applyDialerOptions applyOpt filt opts (applyOpt opt2 d)
    | none => applyDialerOptions applyOpt filt opts (applyOpt opt d)

/-- Function `mkDialer` (options.go): folds the options into a fresh
builder (`init` models `&net.Dialer{}`), returning the builder or the
first filter error. -/
def mkDialer {σ α ε : Type} (applyOpt : α → σ → σ) (opts : List α)
    (filt : Option (α → Except ε α)) (init : σ) : Except ε σ :=
  match applyDialerOptions applyOpt filt opts init with
  | (d, none) => .ok d
  | (_, some e) => .error e

/-- Loop body of `mkListenConfig` (options.go), structured exactly
like `applyDialerOptions` with the `ListenApply`/`ListenFilter`
behaviors. -/
def applyListenerOptions {σ α ε : Type} (applyOpt : α → σ → σ)
    (filt : Option (α → Except ε α)) : List α → σ → σ × Option ε
  | [], lc => (lc, none)
  | opt :: opts, lc =>
    match filt with
    | some f =>
      match f opt with
      | .error e => (lc, some e)
      | .ok opt2 => applyListenerOptions applyOpt filt opts (applyOpt opt2 lc)
    | none => applyListenerOptions applyOpt filt opts (applyOpt opt lc)

/-- Function `mkListenConfig` (options.go): folds the options into a
fresh `net.ListenConfig` builder. -/
def mkListenConfig {σ α ε : Type} (applyOpt : α → σ → σ) (opts : List α)
    (filt : Option (α → Except ε α)) (init : σ) : Except ε σ :=
  match applyListenerOptions applyOpt filt opts init with
  | (lc, none) => .ok lc
  | (_, some e) => .error e

theorem applyDialerOptions_none {σ α ε : Type} (applyOpt : α → σ → σ)
    (opts : List α) (init : σ) :
    applyDialerOptions (ε := ε) applyOpt none opts init =
      (opts.foldl (fun d o => applyOpt o d) init, none) := by
  induction opts generalizing init with
  | nil => rfl
  | cons o opts ih => simp [applyDialerOptions, ih]

theorem applyDialerOptions_abort {σ α ε : Type} (applyOpt : α → σ → σ)
    (f : α → Except ε α) (pre : List α) (o : α) (post : List α) (e : ε) (init : σ)
    (hpre : ∀ x ∈ pre, (f x).isOk) (ho : f o = .error e) :
    applyDialerOptions applyOpt (some f) (pre ++ o :: post) init =
      ((applyDialerOptions applyOpt (some f) pre init).1, some e) := by
  induction pre generalizing init with
  | nil => simp [applyDialerOptions, ho]
  | cons x pre ih =>
    have hx : (f x).isOk := hpre x (by simp)
    cases hfx : f x with
    | error e2 => rw [hfx] at hx; simp [Except.isOk, Except.toBool] at hx
    | ok y =>
      simp only [List.cons_append, applyDialerOptions, hfx]
      exact ih (applyOpt y init) (fun z hz => hpre z (by simp [hz]))

theorem applyListenerOptions_none {σ α ε : Type} (applyOpt : α → σ → σ)
    (opts : List α) (init : σ) :
    applyListenerOptions (ε := ε) applyOpt none opts init =
      (opts.foldl (fun lc o => applyOpt o lc) init, none) := by
  induction opts generalizing init with
  | nil => rfl
  | cons o opts ih => simp [applyListenerOptions, ih]

theorem applyListenerOptions_abort {σ α ε : Type} (applyOpt : α → σ → σ)
    (f : α → Except ε α) (pre : List α) (o : α) (post : List α) (e : ε) (init : σ)
    (hpre : ∀ x ∈ pre, (f x).isOk) (ho : f o = .error e) :
    applyListenerOptions applyOpt (some f) (pre ++ o :: post) init =
      ((applyListenerOptions applyOpt (some f) pre init).1, some e) := by
  induction pre generalizing init with
  | nil => simp [applyListenerOptions, ho]
  | cons x pre ih =>
    have hx : (f x).isOk := hpre x (by simp)
    cases hfx : f x with
    | error e2 => rw [hfx] at hx; simp [Except.isOk, Except.toBool] at hx
    | ok y =>
      simp only [List.cons_append, applyListenerOptions, hfx]
      exact ih (applyOpt y init) (fun z hz => hpre z (by simp [hz]))

/-- C8: with no filter, `mkDialer` and `mkListenConfig` apply every
option left-to-right and succeed with the folded builder; with a
filter that accepts every option before the i-th and rejects the i-th
with error `e`, the fold aborts immediately with `e`: the builder
state at the abort equals the state after the prefix (earlier effects
remain), and the i-th and all later options are never applied. -/
theorem mk_builders_filter :
    (∀ (σ α ε : Type) (applyOpt : α → σ → σ) (opts : List α) (init : σ),
      mkDialer (ε := ε) applyOpt opts none init =
        .ok (opts.foldl (fun d o => applyOpt o d) init)) ∧
    (∀ (σ α ε : Type) (applyOpt : α → σ → σ) (f : α → Except ε α)
      (pre : List α) (o : α) (post : List α) (e : ε) (init : σ),
      (∀ x ∈ pre, (f x).isOk) → f o = .error e →
      mkDialer applyOpt (pre ++ o :: post) (some f) init = .error e ∧
      applyDialerOptions applyOpt (some f) (pre ++ o :: post) init =
        ((applyDialerOptions applyOpt (some f) pre init).1, some e)) ∧
    (∀ (σ α ε : Type) (applyOpt : α → σ → σ) (opts : List α) (init : σ),
      mkListenConfig (ε := ε) applyOpt opts none init =
        .ok (opts.foldl (fun lc o => applyOpt o lc) init)) ∧
    (∀ (σ α ε : Type) (applyOpt : α → σ → σ) (f : α → Except ε α)
      (pre : List α) (o : α) (post : List α) (e : ε) (init : σ),
      (∀ x ∈ pre, (f x).isOk) → f o = .error e →
      mkListenConfig applyOpt (pre ++ o :: post) (some f) init = .error e ∧
      applyListenerOptions applyOpt (some f) (pre ++ o :: post) init =
        ((applyListenerOptions applyOpt (some f) pre init).1, some e)) := by
  refine ⟨?_, ?_, ?_, ?_⟩
  · intro σ α ε applyOpt opts init
    simp [mkDialer, applyDialerOptions_none]
  · intro σ α ε applyOpt f pre o post e init hpre ho
    have habort := applyDialerOptions_abort applyOpt f pre o post e init hpre ho
    exact ⟨by simp [mkDialer, habort], habort⟩
  · intro σ α ε applyOpt opts init
    simp [mkListenConfig, applyListenerOptions_none]
  · intro σ α ε applyOpt f pre o post e init hpre ho
    have habort := applyListenerOptions_abort applyOpt f pre o post e init hpre ho
    exact ⟨by simp [mkListenConfig, habort], habort⟩

/-- C8 witness: options are numbers added onto a numeric builder
state; the filter increments accepted options and rejects option 0
with error 7.  Applying `[2, 0, 5]` aborts with 7 after state 3 (the
filtered first option applied), and with no filter `[2, 5]` folds to
7. -/
theorem mk_builders_filter_witness :
    mkDialer (ε := Unit) (fun o d => d + o) [2, 5] none (0 : Nat) = .ok 7 ∧
    mkDialer (fun o d => d + o) [2, 0, 5]
      (some fun o => if o = 0 then .error 7 else .ok (o + 1)) (0 : Nat) = .error 7 ∧
    applyDialerOptions (fun o d => d + o) (some fun o => if o = 0 then .error 7 else .ok (o + 1))
      [2, 0, 5] (0 : Nat) = (3, some 7) ∧
    mkListenConfig (ε := Unit) (fun o lc => lc + o) [2, 5] none (0 : Nat) = .ok 7 ∧
    mkListenConfig (fun o lc => lc + o) [2, 0, 5]
      (some fun o => if o = 0 then .error 7 else .ok (o + 1)) (0 : Nat) = .error 7 ∧
    applyListenerOptions (fun o lc => lc + o)
      (some fun o => if o = 0 then .error 7 else .ok (o + 1))
      [2, 0, 5] (0 : Nat) = (3, some 7) := by
  have hd := mk_builders_filter.2.1 Nat Nat Nat (fun o d => d + o)
    (fun o => if o = 0 then .error 7 else .ok (o + 1)) [2] 0 [5] 7 0
    (by decide) rfl
  have hl := mk_builders_filter.2.2.2 Nat Nat Nat (fun o lc => lc + o)
    (fun o => if o = 0 then .error 7 else .ok (o + 1)) [2] 0 [5] 7 0
    (by decide) rfl
  refine ⟨mk_builders_filter.1 Nat Nat Unit (fun o d => d + o) [2, 5] 0, ?_, ?_,
    mk_builders_filter.2.2.1 Nat Nat Unit (fun o lc => lc + o) [2, 5] 0, ?_, ?_⟩
  · simpa using hd.1
  · simpa using hd.2
  · simpa using hl.1
  · simpa using hl.2

/-- C1 witness: the decomposition at the spec's example scheme. -/
theorem parseScheme_correct_witness :
    parseScheme "tcp+s1+s2.d1.d2".toList =
      ⟨"tcp".toList, "s1+s2.d1".toList, "d2".toList⟩ :=
  parseScheme_correct.2

/-- C2 witness: a host-less, discovery-free URI is canonical. -/
theorem isCanonical_iff_witness :
    URI.IsCanonical (ε := Unit) (fun _ => .error ()) (fun _ => none) { url := {} } = true :=
  (isCanonical_iff (fun _ => .error ()) (fun _ => none) { url := {} }).mpr ⟨rfl, .inl rfl⟩
